import Mathlib

/-!
Verification development for the phosphor-power regulators core.

The definitions below embed the entity hierarchy (System/Chassis/Device/Rail),
the IDMap registry, the configuration cascade and a PSU manager from the
repository sources:
  - phosphor-regulators/src/chassis.hpp   (Chassis class)
  - phosphor-regulators/src/device.cpp    (Device::addToIDMap, Device::configure)
  - phosphor-power-supply/psu_manager.hpp (PSUManager)
Parts of the core that only the design document describes (the action
execution engine, Configuration::execute, Rail/Chassis/System configure,
IDMap) are modelled from that document; their doc comments say so explicitly.
-/

namespace Regulators

/-- Fault raised during action execution: a failing hardware bus transaction
(I2C read/write error), or an IDMap miss for a cross-referenced identifier at
execution time (spec section 7's LookupError). -/
inductive Fault where
  | hardwareTransactionFault
  | lookupError (id : String)
deriving DecidableEq, Repr

/-- Error raised while building the hierarchy or the IDMap registry. -/
inductive BuildError where
  | duplicateId (id : String)
deriving DecidableEq, Repr

/-- Error raised by a failed IDMap lookup. -/
inductive LookupError where
  | notFound (id : String)
deriving DecidableEq, Repr

/-- Modelled from the spec: the atomic executable unit of the action engine
(section 4.3), which is absent from the available sources.  Register
operations act on a hardware register of the current device; a comparison
stores its boolean outcome in the execution context's last-result register;
the conditional combinator runs one of two nested action lists depending on
the last-result register; the cross-reference comparison resolves a target
device or rail by identifier through the IDMap before reading, and raises a
lookup fault when the identifier is not registered (sections 4.3 and 7). -/
inductive Action where
  | writeRegister (reg val : Nat)
  | compareRegister (reg val : Nat)
  | ifAction (thenActs elseActs : List Action)
  | compareTargetRegister (targetId : String) (reg val : Nat)

/-- Per-execution mutable state visible to actions: the hardware register
file of the machine and the last-comparison-result scratch register of the
execution context. -/
structure ActSt where
  regs : Nat → Nat
  lastResult : Bool

/-- Execution environment for one pass: the register addresses whose bus
transactions fail with a hardware fault, and the identifiers registered in
the IDMap, used to resolve cross-reference actions at execution time. -/
structure HwPlan where
  bad : List Nat
  known : List String

/-- Pointwise update of a register file. -/
def updateFn (f : Nat → Nat) (r v : Nat) : Nat → Nat :=
  fun x => if x = r then v else f x

mutual

/-- Modelled from the spec: execution of a single action (section 4.3).
A register operation on an address whose transaction fails raises a
hardware fault; a comparison that merely evaluates false is not a failure,
it only sets the last-result register. -/
def execAction (p : HwPlan) (st : ActSt) : Action → ActSt × Option Fault
  | .writeRegister reg val =>
      if p.bad.contains reg then (st, some .hardwareTransactionFault)
      else ({ st with regs := updateFn st.regs reg val }, none)
  | .compareRegister reg val =>
      if p.bad.contains reg then (st, some .hardwareTransactionFault)
      else ({ st with lastResult := st.regs reg == val }, none)
  | .ifAction thenActs elseActs =>
      if st.lastResult then execActionList p st thenActs
      else execActionList p st elseActs
  | .compareTargetRegister targetId reg val =>
      if p.known.contains targetId then
        (if p.bad.contains reg then (st, some .hardwareTransactionFault)
         else ({ st with lastResult := st.regs reg == val }, none))
      else (st, some (.lookupError targetId))

/-- Modelled from the spec: execution of an ordered action list (section 4.3).
Execution short-circuits the moment an action raises a hardware fault: the
remaining actions are not executed and the fault is reported to the caller. -/
def execActionList (p : HwPlan) (st : ActSt) : List Action → ActSt × Option Fault
  | [] => (st, none)
  | a :: rest =>
      match execAction p st a with
      | (st', none) => execActionList p st' rest
      | (st', some f) => (st', some f)

end

/-- Call-order observation: one event is appended to the execution trace each
time a Device-level or Rail-level configuration call starts, recording which
entity was configured and in which order. -/
inductive Event where
  | deviceConfigured (chassisNumber : Nat) (deviceId : String)
  | railConfigured (chassisNumber : Nat) (deviceId railId : String)
deriving DecidableEq, Repr

/-- Full execution state threaded through a configure pass: the action-level
state, the call-order trace and the journal of faults recorded per entity
identifier. -/
structure St where
  act : ActSt
  trace : List Event
  faults : List (String × Fault)

/-- Modelled from the spec: a Configuration is an ordered sequence of actions
executed as a unit (sections 2 and 4.3); the class itself is absent from the
available sources. -/
structure Configuration where
  actions : List Action

/-- Modelled from the spec: a Rail owns an optional Configuration and a
parallel monitor action set invoked by the monitoring pass (sections 2 and
4.4); the Rail class is absent from the available sources. -/
structure Rail where
  id : String
  configuration : Option Configuration
  monitoring : Option Configuration

/-- One physical regulator chip: its identifier, an optional chip-level
Configuration, the parallel monitor action set (modelled from spec sections
2 and 4.4) and the owned Rails, mirroring the Device class used by
device.cpp. -/
structure Device where
  id : String
  configuration : Option Configuration
  monitoring : Option Configuration
  rails : List Rail

/-- One independently powered enclosure, from chassis.hpp: the chassis number
and the owned devices. -/
structure Chassis where
  number : Nat
  devices : List Device

/-- The root of the hierarchy: the ordered Chassis list (spec section 2). -/
structure System where
  chassis : List Chassis

/-- Modelled from the spec: Configuration::execute is absent from the
available sources.  It runs the actions in order; a hardware fault raised by
an action aborts the remaining actions of the Configuration, is caught at
this boundary and is recorded in the fault journal against the identifier of
the Device or Rail being configured (sections 4.3, 4.4 and 7), so the caller
never observes an escaping fault. -/
def Configuration.execute (cfg : Configuration) (p : HwPlan) (entityId : String)
    (st : St) : St × Option Fault :=
  match execActionList p st.act cfg.actions with
  | (a', none) => ({ st with act := a' }, none)
  | (a', some f) =>
      ({ st with act := a', faults := st.faults ++ [(entityId, f)] }, none)

/-- Result of a configure call on an entity: the entity as it stands after
the call, the execution state, and the fault escaping the call, if any
(the embedding of a C++ exception propagating out of the method). -/
structure ConfigResult (α : Type) where
  entity : α
  st : St
  escape : Option Fault

/-- Modelled from the spec: Rail::configure is absent from the available
sources.  It executes the Rail's own Configuration, if any, in a context
pointing at the current system, chassis, device and rail (section 4.4); a
Rail with no Configuration is a no-op. -/
def Rail.configure (r : Rail) (p : HwPlan) (chassisNumber : Nat)
    (deviceId : String) (st : St) : ConfigResult Rail :=
  let st0 := { st with trace := st.trace ++ [.railConfigured chassisNumber deviceId r.id] }
  match r.configuration with
  | some cfg =>
      let (st1, e) := cfg.execute p r.id st0
      ⟨r, st1, e⟩
  | none => ⟨r, st0, none⟩

/-- Loop over the owned rails of a device, as written in Device::configure
(device.cpp lines 46-49): each rail is configured in order; a fault escaping
one rail's configure call aborts the loop and propagates. -/
def configureRailList (p : HwPlan) (chassisNumber : Nat) (deviceId : String)
    (st : St) : List Rail → ConfigResult (List Rail)
  | [] => ⟨[], st, none⟩
  | r :: rest =>
      match r.configure p chassisNumber deviceId st with
      | ⟨r', st', some f⟩ => ⟨r' :: rest, st', some f⟩
      | ⟨r', st', none⟩ =>
          let res := configureRailList p chassisNumber deviceId st' rest
          ⟨r' :: res.entity, res.st, res.escape⟩

/-- Embeds Device::configure (device.cpp lines 37-50): if configuration
changes are defined for this device, apply them; then configure the rails in
order.  The method body has no try/catch, so a fault escaping a sub-call
propagates out (and, escaping the configuration, would skip the rails). -/
def Device.configure (d : Device) (p : HwPlan) (chassisNumber : Nat)
    (st : St) : ConfigResult Device :=
  let st0 := { st with trace := st.trace ++ [.deviceConfigured chassisNumber d.id] }
  let configDone :=
    match d.configuration with
    | some cfg => cfg.execute p d.id st0
    | none => (st0, none)
  match configDone with
  | (st1, some f) => ⟨d, st1, some f⟩
  | (st1, none) =>
      let res := configureRailList p chassisNumber d.id st1 d.rails
      ⟨{ d with rails := res.entity }, res.st, res.escape⟩

/-- Modelled from the spec: the device loop of Chassis-level configuration
(section 2 control flow); the Chassis configure code is absent from the
available sources.  Devices are configured in construction order; a fault
escaping one device's configure call aborts the loop and propagates. -/
def configureDeviceList (p : HwPlan) (chassisNumber : Nat)
    (st : St) : List Device → ConfigResult (List Device)
  | [] => ⟨[], st, none⟩
  | d :: rest =>
      match d.configure p chassisNumber st with
      | ⟨d', st', some f⟩ => ⟨d' :: rest, st', some f⟩
      | ⟨d', st', none⟩ =>
          let res := configureDeviceList p chassisNumber st' rest
          ⟨d' :: res.entity, res.st, res.escape⟩

/-- Modelled from the spec: Chassis-level configuration walks the owned
devices in construction order (section 2); absent from the available
sources. -/
def Chassis.configure (c : Chassis) (p : HwPlan) (st : St) : ConfigResult Chassis :=
  let res := configureDeviceList p c.number st c.devices
  ⟨{ c with devices := res.entity }, res.st, res.escape⟩

/-- Modelled from the spec: the chassis loop of System::configure
(section 2); absent from the available sources. -/
def configureChassisList (p : HwPlan) (st : St) :
    List Chassis → ConfigResult (List Chassis)
  | [] => ⟨[], st, none⟩
  | c :: rest =>
      match c.configure p st with
      | ⟨c', st', some f⟩ => ⟨c' :: rest, st', some f⟩
      | ⟨c', st', none⟩ =>
          let res := configureChassisList p st' rest
          ⟨c' :: res.entity, res.st, res.escape⟩

/-- Modelled from the spec: System::configure, the top-level entry point,
walks every chassis in construction order (section 2); absent from the
available sources. -/
def System.configure (s : System) (p : HwPlan) (st : St) : ConfigResult System :=
  let res := configureChassisList p st s.chassis
  ⟨{ s with chassis := res.entity }, res.st, res.escape⟩

/-- Modelled from the spec: execution of an action list during monitoring
(section 4.3).  A hardware-transaction failure is downgraded to a recorded
fault and execution of the remaining actions continues, because monitoring
must observe every rail even if one chip is unresponsive; a lookup fault
still aborts the remaining actions of the Configuration (section 7).  The
faults observed are returned in order. -/
def execActionListMonitor (p : HwPlan) (st : ActSt) : List Action → ActSt × List Fault
  | [] => (st, [])
  | a :: rest =>
      match execAction p st a with
      | (st', none) => execActionListMonitor p st' rest
      | (st', some Fault.hardwareTransactionFault) =>
          let (st'', fs) := execActionListMonitor p st' rest
          (st'', Fault.hardwareTransactionFault :: fs)
      | (st', some (Fault.lookupError i)) => (st', [Fault.lookupError i])

/-- Modelled from the spec: execution of a monitor action set (sections 4.3,
4.4 and 7).  Every fault observed while monitoring is caught at this
boundary and recorded in the fault journal against the identifier of the
Device or Rail being monitored, so the caller never observes an escaping
fault. -/
def Configuration.executeMonitoring (cfg : Configuration) (p : HwPlan)
    (entityId : String) (st : St) : St × Option Fault :=
  let (a', fs) := execActionListMonitor p st.act cfg.actions
  ({ st with act := a', faults := st.faults ++ fs.map (fun f => (entityId, f)) }, none)

/-- Modelled from the spec: Rail-level monitoring, following the same
cascade shape as Rail::configure but invoking the rail's monitor action set
(sections 2 and 4.4); a Rail with no monitor action set is a no-op. -/
def Rail.monitor (r : Rail) (p : HwPlan) (_chassisNumber : Nat)
    (_deviceId : String) (st : St) : ConfigResult Rail :=
  match r.monitoring with
  | some cfg =>
      let (st1, e) := cfg.executeMonitoring p r.id st
      ⟨r, st1, e⟩
  | none => ⟨r, st, none⟩

/-- Modelled from the spec: the rail loop of Device-level monitoring,
following the same cascade shape as the configure pass (section 4.4). -/
def monitorRailList (p : HwPlan) (chassisNumber : Nat) (deviceId : String)
    (st : St) : List Rail → ConfigResult (List Rail)
  | [] => ⟨[], st, none⟩
  | r :: rest =>
      match r.monitor p chassisNumber deviceId st with
      | ⟨r', st', some f⟩ => ⟨r' :: rest, st', some f⟩
      | ⟨r', st', none⟩ =>
          let res := monitorRailList p chassisNumber deviceId st' rest
          ⟨r' :: res.entity, res.st, res.escape⟩

/-- Modelled from the spec: Device-level monitoring, the same cascade shape
as Device::configure with the monitor action set substituted (section 4.4):
run the device's own monitor action set, if any, then monitor every owned
rail in order. -/
def Device.monitor (d : Device) (p : HwPlan) (chassisNumber : Nat)
    (st : St) : ConfigResult Device :=
  let monitorDone :=
    match d.monitoring with
    | some cfg => cfg.executeMonitoring p d.id st
    | none => (st, none)
  match monitorDone with
  | (st1, some f) => ⟨d, st1, some f⟩
  | (st1, none) =>
      let res := monitorRailList p chassisNumber d.id st1 d.rails
      ⟨{ d with rails := res.entity }, res.st, res.escape⟩

/-- Modelled from the spec: the device loop of Chassis-level monitoring
(section 2 control flow: monitoring follows the same traversal shape as
configuration). -/
def monitorDeviceList (p : HwPlan) (chassisNumber : Nat)
    (st : St) : List Device → ConfigResult (List Device)
  | [] => ⟨[], st, none⟩
  | d :: rest =>
      match d.monitor p chassisNumber st with
      | ⟨d', st', some f⟩ => ⟨d' :: rest, st', some f⟩
      | ⟨d', st', none⟩ =>
          let res := monitorDeviceList p chassisNumber st' rest
          ⟨d' :: res.entity, res.st, res.escape⟩

/-- Modelled from the spec: Chassis-level monitoring walks the owned devices
in construction order (section 2). -/
def Chassis.monitor (c : Chassis) (p : HwPlan) (st : St) : ConfigResult Chassis :=
  let res := monitorDeviceList p c.number st c.devices
  ⟨{ c with devices := res.entity }, res.st, res.escape⟩

/-- Modelled from the spec: the chassis loop of System-level monitoring
(section 2). -/
def monitorChassisList (p : HwPlan) (st : St) :
    List Chassis → ConfigResult (List Chassis)
  | [] => ⟨[], st, none⟩
  | c :: rest =>
      match c.monitor p st with
      | ⟨c', st', some f⟩ => ⟨c' :: rest, st', some f⟩
      | ⟨c', st', none⟩ =>
          let res := monitorChassisList p st' rest
          ⟨c' :: res.entity, res.st, res.escape⟩

/-- Modelled from the spec: System::monitor, the second top-level entry
point, walks every chassis in construction order and invokes the monitor
action sets instead of the configure actions (section 2). -/
def System.monitor (s : System) (p : HwPlan) (st : St) : ConfigResult System :=
  let res := monitorChassisList p st s.chassis
  ⟨{ s with chassis := res.entity }, res.st, res.escape⟩

/-- One registered entity of the IDMap registry: a Device or a Rail. -/
inductive IDMapEntry where
  | device (d : Device)
  | rail (r : Rail)

/-- Modelled from the spec: the IDMap registry mapping a unique textual
identifier to a Device or Rail (sections 2 and 4.2); the class is absent
from the available sources.  Registration order is kept. -/
structure IDMap where
  entries : List (String × IDMapEntry)

/-- Lookup of an identifier among the registered entries, first match wins. -/
def findEntry : List (String × IDMapEntry) → String → Option IDMapEntry
  | [], _ => none
  | (k, v) :: rest, i => if k = i then some v else findEntry rest i

/-- Modelled from the spec: registration of one entry; registering an
identifier that is already present is a fatal build-time configuration
error (section 4.2). -/
def IDMap.add (m : IDMap) (i : String) (e : IDMapEntry) : Except BuildError IDMap :=
  match findEntry m.entries i with
  | some _ => .error (.duplicateId i)
  | none => .ok ⟨m.entries ++ [(i, e)]⟩

/-- Modelled from the spec: IDMap::addDevice registers a non-owning reference
to the device keyed by its identifier (section 4.2). -/
def IDMap.addDevice (m : IDMap) (d : Device) : Except BuildError IDMap :=
  m.add d.id (.device d)

/-- Modelled from the spec: IDMap::addRail registers a non-owning reference
to the rail keyed by its identifier (section 4.2). -/
def IDMap.addRail (m : IDMap) (r : Rail) : Except BuildError IDMap :=
  m.add r.id (.rail r)

/-- Modelled from the spec: IDMap::getDevice returns the registered device or
fails with a not-found fault if the identifier is unknown (section 4.2). -/
def IDMap.getDevice (m : IDMap) (i : String) : Except LookupError Device :=
  match findEntry m.entries i with
  | some (.device d) => .ok d
  | _ => .error (.notFound i)

/-- Modelled from the spec: IDMap::getRail returns the registered rail or
fails with a not-found fault if the identifier is unknown (section 4.2). -/
def IDMap.getRail (m : IDMap) (i : String) : Except LookupError Rail :=
  match findEntry m.entries i with
  | some (.rail r) => .ok r
  | _ => .error (.notFound i)

/-- Loop over the owned rails of Device::addToIDMap (device.cpp lines
31-34): each rail is registered in order. -/
def addRailList (m : IDMap) : List Rail → Except BuildError IDMap
  | [] => .ok m
  | r :: rest =>
      match m.addRail r with
      | .error e => .error e
      | .ok m1 => addRailList m1 rest

/-- Embeds Device::addToIDMap (device.cpp lines 25-35): add this device to
the map, then add each owned rail to the map.  A registration failure
propagates immediately, as the thrown exception would. -/
def Device.addToIDMap (d : Device) (m : IDMap) : Except BuildError IDMap :=
  match m.addDevice d with
  | .error e => .error e
  | .ok m1 => addRailList m1 d.rails

/-- All devices of the hierarchy in traversal order. -/
def System.allDevices (s : System) : List Device :=
  s.chassis.flatMap (fun c => c.devices)

/-- The device loop of the IDMap-population walk: each device (and, inside
Device::addToIDMap, its rails) is registered in order. -/
def addDeviceList (m : IDMap) : List Device → Except BuildError IDMap
  | [] => .ok m
  | d :: rest =>
      match d.addToIDMap m with
      | .error e => .error e
      | .ok m1 => addDeviceList m1 rest

/-- Modelled from the spec: the IDMap is populated once, before any
execution, by walking the hierarchy and calling Device::addToIDMap on every
device (section 2); the walking code is absent from the available sources. -/
def System.buildIDMap (s : System) : Except BuildError IDMap :=
  addDeviceList ⟨[]⟩ s.allDevices

/-- All identifiers (device and rail) of the hierarchy in registration
order. -/
def System.allIds (s : System) : List String :=
  s.allDevices.flatMap (fun d => d.id :: d.rails.map (fun r => r.id))

/-- Embeds the Chassis constructor (chassis.hpp lines 63-74).  The member
initializer list runs first, so the devices vector is moved into the new
object (leaving the caller's argument vector empty) before the body
validates the chassis number; an invalid number then raises
std::invalid_argument with the message built in the source.  The result is
the constructed chassis or the error message, paired with the state of the
caller's argument vector after the call. -/
def chassisCtor (number : Nat) (devices : List Device) :
    Except String Chassis × List Device :=
  let fieldNumber := number
  let fieldDevices := devices
  let callerDevices : List Device := []
  if fieldNumber < 1 then
    (.error ("Invalid chassis number: " ++ toString fieldNumber), callerDevices)
  else
    (.ok { number := fieldNumber, devices := fieldDevices }, callerDevices)

/-- Embeds Chassis::getDevices (chassis.hpp lines 84-87): returns the devices
within this chassis. -/
def Chassis.getDevices (c : Chassis) : List Device :=
  c.devices

/-- Embeds Chassis::getNumber (chassis.hpp lines 94-97): returns the chassis
number within the system. -/
def Chassis.getNumber (c : Chassis) : Nat :=
  c.number

/-- The device-level configuration calls recorded in a trace, in order:
each entry is the chassis number and device identifier of one
Device-configure call. -/
def deviceEventsOf : List Event → List (Nat × String)
  | [] => []
  | .deviceConfigured cn i :: rest => (cn, i) :: deviceEventsOf rest
  | .railConfigured _ _ _ :: rest => deviceEventsOf rest

/-- The rail-level configuration calls recorded in a trace, in order: each
entry is the chassis number, owning device identifier and rail identifier of
one Rail-configure call. -/
def railEventsOf : List Event → List (Nat × String × String)
  | [] => []
  | .railConfigured cn di ri :: rest => (cn, di, ri) :: railEventsOf rest
  | .deviceConfigured _ _ :: rest => railEventsOf rest

/-- Initial execution state: all registers zero, empty trace, empty fault
journal. -/
def stInit : St :=
  ⟨⟨fun _ => 0, false⟩, [], []⟩

/-- All identifiers (device and rail) contributed to the IDMap by a list of
devices, in registration order. -/
def deviceMemberIds (ds : List Device) : List String :=
  ds.flatMap (fun d => d.id :: d.rails.map (fun r => r.id))

/-- All identifiers contributed to the IDMap by a list of chassis. -/
def chassisMemberIds (cs : List Chassis) : List String :=
  cs.flatMap (fun c => deviceMemberIds c.devices)

/-- The IDMap entries contributed by one device: the device itself, then its
rails, in the order Device::addToIDMap registers them. -/
def kvOfDevice (d : Device) : List (String × IDMapEntry) :=
  (d.id, .device d) :: d.rails.map (fun r => (r.id, .rail r))

/-- The IDMap entries contributed by a device list, in registration order. -/
def entriesOfDevices (ds : List Device) : List (String × IDMapEntry) :=
  ds.flatMap kvOfDevice

/-- Generic registration loop over explicit key/value pairs; the rail and
device registration loops are instances of it. -/
def addKVList (m : IDMap) : List (String × IDMapEntry) → Except BuildError IDMap
  | [] => .ok m
  | (i, e) :: rest =>
      match m.add i e with
      | .error err => .error err
      | .ok m1 => addKVList m1 rest

/-- Straight-line actions: plain register writes and comparisons, without
the conditional combinator and without cross-reference resolution. -/
def Action.isStraight : Action → Bool
  | .writeRegister _ _ => true
  | .compareRegister _ _ => true
  | .ifAction _ _ => false
  | .compareTargetRegister _ _ _ => false

/-- A Configuration whose actions are all straight-line. -/
def Configuration.straight (cfg : Configuration) : Bool :=
  cfg.actions.all Action.isStraight

/-- A Rail whose Configuration, if any, is straight-line. -/
def Rail.straight (r : Rail) : Bool :=
  match r.configuration with
  | some cfg => cfg.straight
  | none => true

/-- A Device whose Configuration and rails are all straight-line. -/
def Device.straight (d : Device) : Bool :=
  (match d.configuration with
   | some cfg => cfg.straight
   | none => true) && d.rails.all Rail.straight

/-- A Chassis whose devices are all straight-line. -/
def Chassis.straight (c : Chassis) : Bool :=
  c.devices.all Device.straight

/-- A System whose configurations are all straight-line. -/
def System.straight (s : System) : Bool :=
  s.chassis.all Chassis.straight

/-- The register-file effect of a straight-line action list. -/
def applyActs : List Action → (Nat → Nat) → Nat → Nat
  | [], regs => regs
  | .writeRegister r v :: rest, regs => applyActs rest (updateFn regs r v)
  | .compareRegister _ _ :: rest, regs => applyActs rest regs
  | .ifAction _ _ :: rest, regs => applyActs rest regs
  | .compareTargetRegister _ _ _ :: rest, regs => applyActs rest regs

/-- The last value written to a register by a straight-line action list, if
any. -/
def lastWrite : List Action → Nat → Option Nat
  | [], _ => none
  | .writeRegister r v :: rest, x =>
      (match lastWrite rest x with
       | some w => some w
       | none => if r = x then some v else none)
  | .compareRegister _ _ :: rest, x => lastWrite rest x
  | .ifAction _ _ :: rest, x => lastWrite rest x
  | .compareTargetRegister _ _ _ :: rest, x => lastWrite rest x

/-- The configuration actions owned by a rail. -/
def Rail.acts (r : Rail) : List Action :=
  match r.configuration with
  | some cfg => cfg.actions
  | none => []

/-- The configuration actions executed for a device: its own configuration
first, then its rails' configurations in order. -/
def Device.acts (d : Device) : List Action :=
  (match d.configuration with
   | some cfg => cfg.actions
   | none => []) ++ d.rails.flatMap Rail.acts

/-- The configuration actions executed for a chassis, in traversal order. -/
def Chassis.acts (c : Chassis) : List Action :=
  c.devices.flatMap Device.acts

/-- The configuration actions executed for a whole configure pass, in
traversal order. -/
def System.acts (s : System) : List Action :=
  s.chassis.flatMap Chassis.acts

/-- Example rail with no configuration and no monitor action set. -/
def railW1 : Rail :=
  ⟨"r1", none, none⟩

/-- Example rail with no configuration and no monitor action set. -/
def railW2 : Rail :=
  ⟨"r2", none, none⟩

/-- Example device whose configuration holds three register writes and which
owns two rails. -/
def deviceW1 : Device :=
  ⟨"d1", some ⟨[.writeRegister 1 11, .writeRegister 2 22, .writeRegister 3 33]⟩,
    none, [railW1, railW2]⟩

/-- Example sibling device with a single register write. -/
def deviceW2 : Device :=
  ⟨"d2", some ⟨[.writeRegister 5 55]⟩, none, []⟩

/-- Example chassis holding the two example devices. -/
def chassisW : Chassis :=
  ⟨1, [deviceW1, deviceW2]⟩

/-- Example system holding the example chassis. -/
def sysW : System :=
  ⟨[chassisW]⟩

/-- Execution environment in which transactions on register 2 fail and no
cross-reference identifiers are registered. -/
def planBad2 : HwPlan :=
  ⟨[2], []⟩

/-- Execution environment with no failing transactions and no registered
cross-reference identifiers. -/
def planOk : HwPlan :=
  ⟨[], []⟩

/-- Device whose configuration branches on the value of register 0: if
register 0 reads 0, write 1 to it, otherwise write 2 to it. -/
def deviceC8 : Device :=
  ⟨"d", some ⟨[.compareRegister 0 0,
    .ifAction [.writeRegister 0 1] [.writeRegister 0 2]]⟩, none, []⟩

/-- Example device whose monitor action set reads the failing register 2,
for exercising fault recording during a monitoring pass. -/
def deviceM : Device :=
  ⟨"dm", none, some ⟨[.compareRegister 2 0]⟩, []⟩

/-- Example system holding only the monitored device. -/
def sysM : System :=
  ⟨[⟨1, [deviceM]⟩]⟩

/-- System holding only the branching device. -/
def sysC8 : System :=
  ⟨[⟨1, [deviceC8]⟩]⟩

/-- Execution state after one fault-free configure pass on the branching
system. -/
def onceC8 : St :=
  (sysC8.configure planOk stInit).st

/-- Execution state after a second fault-free configure pass on the branching
system. -/
def twiceC8 : St :=
  (sysC8.configure planOk onceC8).st

/-- Device with a duplicated identifier, for duplicate-registration tests. -/
def deviceX : Device :=
  ⟨"x", none, none, []⟩

/-- Rail whose identifier collides with the device above. -/
def railX : Rail :=
  ⟨"x", none, none⟩

/-- IDMap already holding the identifier of the colliding entities. -/
def mapX : IDMap :=
  ⟨[("x", .device deviceX)]⟩

/-- System containing two devices with the same identifier. -/
def sysDup : System :=
  ⟨[⟨1, [deviceX, deviceX]⟩]⟩

end Regulators

namespace PSUManagerModel

/-- State of one PSUManager object (psu_manager.hpp): the referenced D-Bus
bus, the polling timer interval, the power-on flag and the optional power-on
signal match subscription, abstracted to plain data. -/
structure PSUManager where
  busId : Nat
  timerIntervalMs : Nat
  powerOn : Bool
  powerOnMatch : Option Nat

/-- External state a PSUManager method could touch (D-Bus properties, logged
errors), abstracted to plain data. -/
structure World where
  dbusProperties : List (String × Nat)
  loggedErrors : List String

/-- Embeds PSUManager::initialize (psu_manager.hpp lines 49-51, spelled
initialise here): the body is empty, so the manager and the external state
are returned unchanged. -/
def PSUManager.initialise (m : PSUManager) (w : World) : PSUManager × World :=
  (m, w)

/-- Embeds PSUManager::clearFaults (psu_manager.hpp lines 67-69): the body is
empty, so the manager and the external state are returned unchanged. -/
def PSUManager.clearFaults (m : PSUManager) (w : World) : PSUManager × World :=
  (m, w)

/-- Embeds PSUManager::analyze (psu_manager.hpp lines 85-87): the body is
empty, so the manager and the external state are returned unchanged. -/
def PSUManager.analyze (m : PSUManager) (w : World) : PSUManager × World :=
  (m, w)

end PSUManagerModel

namespace Regulators

theorem deviceEventsOf_append (xs ys : List Event) :
    deviceEventsOf (xs ++ ys) = deviceEventsOf xs ++ deviceEventsOf ys := by
  induction xs with
  | nil => rfl
  | cons e rest ih => cases e <;> simp [deviceEventsOf, ih]

theorem railEventsOf_append (xs ys : List Event) :
    railEventsOf (xs ++ ys) = railEventsOf xs ++ railEventsOf ys := by
  induction xs with
  | nil => rfl
  | cons e rest ih => cases e <;> simp [railEventsOf, ih]

theorem configuration_execute_spec (cfg : Configuration) (p : HwPlan)
    (i : String) (st : St) :
    (cfg.execute p i st).2 = none ∧
    (cfg.execute p i st).1.trace = st.trace ∧
    ∀ x ∈ (cfg.execute p i st).1.faults, x ∈ st.faults ∨ x.1 = i := by
  rcases h : execActionList p st.act cfg.actions with ⟨a', e⟩
  cases e with
  | none =>
      refine ⟨by simp [Configuration.execute, h], by simp [Configuration.execute, h], ?_⟩
      intro x hx
      simp only [Configuration.execute, h] at hx
      exact Or.inl hx
  | some f =>
      refine ⟨by simp [Configuration.execute, h], by simp [Configuration.execute, h], ?_⟩
      intro x hx
      simp only [Configuration.execute, h, List.mem_append, List.mem_singleton] at hx
      rcases hx with hx | rfl
      · exact Or.inl hx
      · exact Or.inr rfl

theorem rail_configure_spec (r : Rail) (p : HwPlan) (cn : Nat) (di : String)
    (st : St) :
    (r.configure p cn di st).escape = none ∧
    (r.configure p cn di st).entity = r ∧
    (r.configure p cn di st).st.trace
      = st.trace ++ [Event.railConfigured cn di r.id] ∧
    ∀ x ∈ (r.configure p cn di st).st.faults, x ∈ st.faults ∨ x.1 = r.id := by
  cases hc : r.configuration with
  | none =>
      refine ⟨by simp [Rail.configure, hc], by simp [Rail.configure, hc],
        by simp [Rail.configure, hc], ?_⟩
      intro x hx
      simp only [Rail.configure, hc] at hx
      exact Or.inl hx
  | some cfg =>
      have h := configuration_execute_spec cfg p r.id
        { st with trace := st.trace ++ [Event.railConfigured cn di r.id] }
      rcases he : cfg.execute p r.id
          { st with trace := st.trace ++ [Event.railConfigured cn di r.id] } with ⟨st1, e⟩
      rw [he] at h
      obtain ⟨h1, h2, h3⟩ := h
      simp only at h1
      subst h1
      refine ⟨by simp [Rail.configure, hc, he], by simp [Rail.configure, hc, he], ?_, ?_⟩
      · simpa [Rail.configure, hc, he] using h2
      · intro x hx
        simp only [Rail.configure, hc, he] at hx
        exact h3 x hx

theorem configureRailList_spec (p : HwPlan) (cn : Nat) (di : String)
    (rs : List Rail) (st : St) :
    (configureRailList p cn di st rs).escape = none ∧
    (configureRailList p cn di st rs).entity = rs ∧
    deviceEventsOf (configureRailList p cn di st rs).st.trace
      = deviceEventsOf st.trace ∧
    railEventsOf (configureRailList p cn di st rs).st.trace
      = railEventsOf st.trace ++ rs.map (fun r => (cn, di, r.id)) ∧
    ∀ x ∈ (configureRailList p cn di st rs).st.faults,
      x ∈ st.faults ∨ x.1 ∈ rs.map (fun r => r.id) := by
  induction rs generalizing st with
  | nil => simp [configureRailList]
  | cons r rest ih =>
      have hr := rail_configure_spec r p cn di st
      rcases hres : r.configure p cn di st with ⟨r', st', e⟩
      rw [hres] at hr
      obtain ⟨h1, h2, h3, h4⟩ := hr
      simp only at h1 h2 h3
      subst h1
      subst h2
      have hrest := ih st'
      simp only [configureRailList, hres]
      refine ⟨hrest.1, by simp [hrest.2.1], ?_, ?_, ?_⟩
      · rw [hrest.2.2.1, h3, deviceEventsOf_append]
        simp [deviceEventsOf]
      · rw [hrest.2.2.2.1, h3, railEventsOf_append]
        simp [railEventsOf]
      · intro x hx
        rcases hrest.2.2.2.2 x hx with hx' | hx'
        · rcases h4 x hx' with h | h
          · exact Or.inl h
          · exact Or.inr (by simp [h])
        · exact Or.inr (by simp [hx'])

theorem device_configure_spec (d : Device) (p : HwPlan) (cn : Nat) (st : St) :
    (d.configure p cn st).escape = none ∧
    (d.configure p cn st).entity = d ∧
    deviceEventsOf (d.configure p cn st).st.trace
      = deviceEventsOf st.trace ++ [(cn, d.id)] ∧
    railEventsOf (d.configure p cn st).st.trace
      = railEventsOf st.trace ++ d.rails.map (fun r => (cn, d.id, r.id)) ∧
    ∀ x ∈ (d.configure p cn st).st.faults,
      x ∈ st.faults ∨ x.1 = d.id ∨ x.1 ∈ d.rails.map (fun r => r.id) := by
  rcases d with ⟨did, dcfg, dmon, drails⟩
  cases dcfg with
  | none =>
      have hrl := configureRailList_spec p cn did drails
        { st with trace := st.trace ++ [Event.deviceConfigured cn did] }
      simp only [Device.configure]
      refine ⟨hrl.1, ?_, ?_, ?_, ?_⟩
      · simp [hrl.2.1]
      · rw [hrl.2.2.1, deviceEventsOf_append]
        simp [deviceEventsOf]
      · rw [hrl.2.2.2.1, railEventsOf_append]
        simp [railEventsOf]
      · intro x hx
        rcases hrl.2.2.2.2 x hx with hx' | hx'
        · exact Or.inl hx'
        · exact Or.inr (Or.inr hx')
  | some cfg =>
      have hce := configuration_execute_spec cfg p did
        { st with trace := st.trace ++ [Event.deviceConfigured cn did] }
      rcases he : cfg.execute p did
          { st with trace := st.trace ++ [Event.deviceConfigured cn did] } with ⟨st1, e⟩
      rw [he] at hce
      obtain ⟨he1, he2, he3⟩ := hce
      simp only at he1 he2
      subst he1
      have hrl := configureRailList_spec p cn did drails st1
      simp only [Device.configure, he]
      refine ⟨hrl.1, ?_, ?_, ?_, ?_⟩
      · simp [hrl.2.1]
      · rw [hrl.2.2.1, he2, deviceEventsOf_append]
        simp [deviceEventsOf]
      · rw [hrl.2.2.2.1, he2, railEventsOf_append]
        simp [railEventsOf]
      · intro x hx
        rcases hrl.2.2.2.2 x hx with hx' | hx'
        · rcases he3 x hx' with h | h
          · exact Or.inl h
          · exact Or.inr (Or.inl h)
        · exact Or.inr (Or.inr hx')

theorem deviceMemberIds_append (xs ys : List Device) :
    deviceMemberIds (xs ++ ys) = deviceMemberIds xs ++ deviceMemberIds ys := by
  simp [deviceMemberIds]

theorem deviceMemberIds_cons (d : Device) (ds : List Device) :
    deviceMemberIds (d :: ds)
      = d.id :: (d.rails.map (fun r => r.id) ++ deviceMemberIds ds) := by
  simp [deviceMemberIds]

theorem configureDeviceList_spec (p : HwPlan) (cn : Nat)
    (ds : List Device) (st : St) :
    (configureDeviceList p cn st ds).escape = none ∧
    (configureDeviceList p cn st ds).entity = ds ∧
    deviceEventsOf (configureDeviceList p cn st ds).st.trace
      = deviceEventsOf st.trace ++ ds.map (fun d => (cn, d.id)) ∧
    ∀ x ∈ (configureDeviceList p cn st ds).st.faults,
      x ∈ st.faults ∨ x.1 ∈ deviceMemberIds ds := by
  induction ds generalizing st with
  | nil =>
      refine ⟨rfl, rfl, by simp [configureDeviceList], ?_⟩
      intro x hx
      exact Or.inl hx
  | cons d rest ih =>
      have hd := device_configure_spec d p cn st
      rcases hres : d.configure p cn st with ⟨d', st', e⟩
      rw [hres] at hd
      obtain ⟨h1, h2, h3, _, h5⟩ := hd
      simp only at h1 h2 h3
      subst h1
      subst h2
      have hrest := ih st'
      simp only [configureDeviceList, hres]
      refine ⟨hrest.1, by simp [hrest.2.1], ?_, ?_⟩
      · rw [hrest.2.2.1, h3]
        simp
      · intro x hx
        rcases hrest.2.2.2 x hx with hx' | hx'
        · rcases h5 x hx' with h | h | h
          · exact Or.inl h
          · refine Or.inr ?_
            rw [deviceMemberIds_cons, h]
            exact List.mem_cons_self _ _
          · refine Or.inr ?_
            rw [deviceMemberIds_cons]
            exact List.mem_cons_of_mem _ (List.mem_append_left _ h)
        · refine Or.inr ?_
          rw [deviceMemberIds_cons]
          exact List.mem_cons_of_mem _ (List.mem_append_right _ hx')

theorem chassis_configure_spec (c : Chassis) (p : HwPlan) (st : St) :
    (c.configure p st).escape = none ∧
    (c.configure p st).entity = c ∧
    deviceEventsOf (c.configure p st).st.trace
      = deviceEventsOf st.trace ++ c.devices.map (fun d => (c.number, d.id)) ∧
    ∀ x ∈ (c.configure p st).st.faults,
      x ∈ st.faults ∨ x.1 ∈ deviceMemberIds c.devices := by
  rcases c with ⟨cn, ds⟩
  have h := configureDeviceList_spec p cn ds st
  simp only [Chassis.configure]
  exact ⟨h.1, by simp [h.2.1], h.2.2.1, h.2.2.2⟩

theorem chassisMemberIds_cons (c : Chassis) (cs : List Chassis) :
    chassisMemberIds (c :: cs)
      = deviceMemberIds c.devices ++ chassisMemberIds cs := by
  simp [chassisMemberIds]

theorem configureChassisList_spec (p : HwPlan) (cs : List Chassis) (st : St) :
    (configureChassisList p st cs).escape = none ∧
    (configureChassisList p st cs).entity = cs ∧
    deviceEventsOf (configureChassisList p st cs).st.trace
      = deviceEventsOf st.trace
        ++ cs.flatMap (fun c => c.devices.map (fun d => (c.number, d.id))) ∧
    ∀ x ∈ (configureChassisList p st cs).st.faults,
      x ∈ st.faults ∨ x.1 ∈ chassisMemberIds cs := by
  induction cs generalizing st with
  | nil =>
      refine ⟨rfl, rfl, by simp [configureChassisList], ?_⟩
      intro x hx
      exact Or.inl hx
  | cons c rest ih =>
      have hc := chassis_configure_spec c p st
      rcases hres : c.configure p st with ⟨c', st', e⟩
      rw [hres] at hc
      obtain ⟨h1, h2, h3, h4⟩ := hc
      simp only at h1 h2 h3
      subst h1
      subst h2
      have hrest := ih st'
      simp only [configureChassisList, hres]
      refine ⟨hrest.1, by simp [hrest.2.1], ?_, ?_⟩
      · rw [hrest.2.2.1, h3]
        simp
      · intro x hx
        rcases hrest.2.2.2 x hx with hx' | hx'
        · rcases h4 x hx' with h | h
          · exact Or.inl h
          · refine Or.inr ?_
            rw [chassisMemberIds_cons]
            exact List.mem_append_left _ h
        · refine Or.inr ?_
          rw [chassisMemberIds_cons]
          exact List.mem_append_right _ hx'

theorem allIds_eq_chassisMemberIds (s : System) :
    s.allIds = chassisMemberIds s.chassis := by
  rcases s with ⟨cs⟩
  induction cs with
  | nil => rfl
  | cons c rest ih =>
      simp only [System.allIds, System.allDevices, chassisMemberIds,
        List.flatMap_cons] at *
      rw [List.flatMap_append]
      simp only [deviceMemberIds] at *
      rw [ih]

theorem system_configure_spec (s : System) (p : HwPlan) (st : St) :
    (s.configure p st).escape = none ∧
    (s.configure p st).entity = s ∧
    deviceEventsOf (s.configure p st).st.trace
      = deviceEventsOf st.trace
        ++ s.chassis.flatMap (fun c => c.devices.map (fun d => (c.number, d.id))) ∧
    ∀ x ∈ (s.configure p st).st.faults,
      x ∈ st.faults ∨ x.1 ∈ s.allIds := by
  rcases s with ⟨cs⟩
  have h := configureChassisList_spec p cs st
  simp only [System.configure]
  refine ⟨h.1, by simp [h.2.1], h.2.2.1, ?_⟩
  intro x hx
  rw [allIds_eq_chassisMemberIds]
  exact h.2.2.2 x hx

theorem findEntry_eq_none (l : List (String × IDMapEntry)) (i : String)
    (h : i ∉ l.map Prod.fst) : findEntry l i = none := by
  induction l with
  | nil => rfl
  | cons kv rest ih =>
      rcases kv with ⟨k, v⟩
      simp only [List.map_cons, List.mem_cons] at h
      push_neg at h
      rw [findEntry, if_neg (fun hk => h.1 hk.symm)]
      exact ih h.2

theorem not_mem_of_findEntry_eq_none (l : List (String × IDMapEntry))
    (i : String) (h : findEntry l i = none) : i ∉ l.map Prod.fst := by
  induction l with
  | nil => simp
  | cons kv rest ih =>
      rcases kv with ⟨k, v⟩
      rw [findEntry] at h
      by_cases hk : k = i
      · rw [if_pos hk] at h
        cases h
      · rw [if_neg hk] at h
        simp only [List.map_cons, List.mem_cons]
        push_neg
        exact ⟨fun hik => hk hik.symm, ih h⟩

theorem findEntry_mem_nodup (l : List (String × IDMapEntry)) (i : String)
    (e : IDMapEntry) (hn : (l.map Prod.fst).Nodup) (hm : (i, e) ∈ l) :
    findEntry l i = some e := by
  induction l with
  | nil => cases hm
  | cons kv rest ih =>
      rcases kv with ⟨k, v⟩
      simp only [List.map_cons, List.nodup_cons] at hn
      rcases List.mem_cons.mp hm with h | h
      · obtain ⟨h1, h2⟩ := Prod.mk.injEq .. ▸ h
        subst h1
        subst h2
        rw [findEntry, if_pos rfl]
      · have hk : k ≠ i := by
          intro hk
          subst hk
          exact hn.1 (List.mem_map.mpr ⟨(k, e), h, rfl⟩)
        rw [findEntry, if_neg hk]
        exact ih hn.2 h

theorem addKVList_append_ok (xs : List (String × IDMapEntry)) :
    ∀ (m m1 : IDMap) (ys : List (String × IDMapEntry)),
      addKVList m xs = .ok m1 →
      addKVList m (xs ++ ys) = addKVList m1 ys := by
  induction xs with
  | nil =>
      intro m m1 ys h
      simp only [addKVList] at h
      cases h
      rfl
  | cons kv rest ih =>
      rcases kv with ⟨i, e⟩
      intro m m1 ys h
      rcases hadd : m.add i e with er | m'
      · rw [addKVList, hadd] at h
        cases h
      · rw [addKVList, hadd] at h
        rw [List.cons_append, addKVList, hadd]
        exact ih m' m1 ys h

theorem addKVList_append_error (xs : List (String × IDMapEntry)) :
    ∀ (m : IDMap) (er : BuildError) (ys : List (String × IDMapEntry)),
      addKVList m xs = .error er →
      addKVList m (xs ++ ys) = .error er := by
  induction xs with
  | nil =>
      intro m er ys h
      simp only [addKVList] at h
      cases h
  | cons kv rest ih =>
      rcases kv with ⟨i, e⟩
      intro m er ys h
      rcases hadd : m.add i e with er' | m'
      · rw [addKVList, hadd] at h
        cases h
        rw [List.cons_append, addKVList, hadd]
      · rw [addKVList, hadd] at h
        rw [List.cons_append, addKVList, hadd]
        exact ih m' er ys h

theorem addRailList_eq_addKVList (rs : List Rail) :
    ∀ (m : IDMap),
      addRailList m rs = addKVList m (rs.map (fun r => (r.id, IDMapEntry.rail r))) := by
  induction rs with
  | nil => intro m; rfl
  | cons r rest ih =>
      intro m
      rcases hadd : m.addRail r with er | m1
      · have hadd' : m.add r.id (IDMapEntry.rail r) = Except.error er := hadd
        rw [addRailList, List.map_cons, addKVList, hadd, hadd']
      · have hadd' : m.add r.id (IDMapEntry.rail r) = Except.ok m1 := hadd
        rw [addRailList, List.map_cons, addKVList, hadd, hadd']
        exact ih m1

theorem addToIDMap_eq_addKVList (d : Device) (m : IDMap) :
    d.addToIDMap m = addKVList m (kvOfDevice d) := by
  rw [Device.addToIDMap, kvOfDevice, addKVList]
  rcases hadd : m.add d.id (IDMapEntry.device d) with er | m1 <;>
    simp only [IDMap.addDevice, hadd]
  exact addRailList_eq_addKVList d.rails m1

theorem addDeviceList_eq_addKVList (ds : List Device) :
    ∀ (m : IDMap), addDeviceList m ds = addKVList m (entriesOfDevices ds) := by
  induction ds with
  | nil => intro m; rfl
  | cons d rest ih =>
      intro m
      have hsplit : entriesOfDevices (d :: rest)
          = kvOfDevice d ++ entriesOfDevices rest := by
        simp [entriesOfDevices]
      rw [addDeviceList, addToIDMap_eq_addKVList, hsplit]
      rcases haux : addKVList m (kvOfDevice d) with er | m1
      · rw [addKVList_append_error _ _ _ _ haux]
      · rw [addKVList_append_ok _ _ _ _ haux]
        exact ih m1

theorem addKVList_ok (kvs : List (String × IDMapEntry)) :
    ∀ (m : IDMap),
      (m.entries.map Prod.fst ++ kvs.map Prod.fst).Nodup →
      addKVList m kvs = .ok ⟨m.entries ++ kvs⟩ := by
  induction kvs with
  | nil =>
      intro m _
      simp [addKVList]
  | cons kv rest ih =>
      rcases kv with ⟨i, e⟩
      intro m h
      have hi : i ∉ m.entries.map Prod.fst := by
        rcases List.nodup_append.mp h with ⟨-, -, hdisj⟩
        intro hmem
        exact hdisj hmem (List.mem_cons_self _ _)
      have hfind : findEntry m.entries i = none := findEntry_eq_none _ _ hi
      have hadd : m.add i e = .ok ⟨m.entries ++ [(i, e)]⟩ := by
        simp [IDMap.add, hfind]
      rw [addKVList, hadd]
      have h' : ((⟨m.entries ++ [(i, e)]⟩ : IDMap).entries.map Prod.fst
          ++ rest.map Prod.fst).Nodup := by
        simpa [List.append_assoc] using h
      show addKVList ⟨m.entries ++ [(i, e)]⟩ rest = _
      rw [ih ⟨m.entries ++ [(i, e)]⟩ h']
      simp [List.append_assoc]

theorem addKVList_ok_nodup (kvs : List (String × IDMapEntry)) :
    ∀ (m m' : IDMap),
      (m.entries.map Prod.fst).Nodup →
      addKVList m kvs = .ok m' →
      (m.entries.map Prod.fst ++ kvs.map Prod.fst).Nodup := by
  induction kvs with
  | nil =>
      intro m m' hn _
      simpa using hn
  | cons kv rest ih =>
      rcases kv with ⟨i, e⟩
      intro m m' hn hok
      rcases hadd : m.add i e with er | m1
      · rw [addKVList, hadd] at hok
        cases hok
      · rw [addKVList, hadd] at hok
        rcases hf : findEntry m.entries i with - | v
        · rw [IDMap.add, hf] at hadd
          have hm1 : m1 = ⟨m.entries ++ [(i, e)]⟩ := by
            cases hadd
            rfl
          subst hm1
          have hi : i ∉ m.entries.map Prod.fst :=
            not_mem_of_findEntry_eq_none _ _ hf
          have hn1 : ((⟨m.entries ++ [(i, e)]⟩ : IDMap).entries.map Prod.fst).Nodup := by
            simp only [List.map_append]
            rw [List.nodup_append]
            exact ⟨hn, List.nodup_singleton _, by
              intro a ha hb
              simp only [List.map_cons, List.map_nil, List.mem_singleton] at hb
              subst hb
              exact hi ha⟩
          have := ih _ m' hn1 hok
          simpa [List.append_assoc] using this
        · rw [IDMap.add, hf] at hadd
          cases hadd

theorem entriesOfDevices_keys (ds : List Device) :
    (entriesOfDevices ds).map Prod.fst = deviceMemberIds ds := by
  induction ds with
  | nil => rfl
  | cons d rest ih =>
      simp only [entriesOfDevices, List.flatMap_cons, List.map_append,
        deviceMemberIds] at *
      rw [ih]
      simp [kvOfDevice, List.map_map, Function.comp]

theorem allIds_eq_deviceMemberIds (s : System) :
    s.allIds = deviceMemberIds s.allDevices :=
  rfl

theorem applyActs_append (xs ys : List Action) (regs : Nat → Nat) :
    applyActs (xs ++ ys) regs = applyActs ys (applyActs xs regs) := by
  induction xs generalizing regs with
  | nil => rfl
  | cons a rest ih => cases a <;> simp [applyActs, ih]

theorem applyActs_lastWrite (acts : List Action) (regs : Nat → Nat) (x : Nat) :
    applyActs acts regs x = (lastWrite acts x).getD (regs x) := by
  induction acts generalizing regs with
  | nil => rfl
  | cons a rest ih =>
      cases a with
      | writeRegister r v =>
          rw [applyActs, lastWrite, ih]
          cases hl : lastWrite rest x with
          | some w => simp
          | none =>
              by_cases hr : r = x
              · simp [hr, updateFn]
              · have hx : ¬x = r := fun h => hr h.symm
                simp [hr, hx, updateFn]
      | compareRegister r v => rw [applyActs, lastWrite, ih]
      | ifAction t e => rw [applyActs, lastWrite, ih]
      | compareTargetRegister ti r v => rw [applyActs, lastWrite, ih]

theorem applyActs_idem (acts : List Action) (regs : Nat → Nat) (x : Nat) :
    applyActs acts (applyActs acts regs) x = applyActs acts regs x := by
  rw [applyActs_lastWrite, applyActs_lastWrite]
  cases hl : lastWrite acts x with
  | some w => simp
  | none => simp [applyActs_lastWrite, hl]

theorem exec_straight (acts : List Action) (p : HwPlan) (hb : p.bad = [])
    (h : acts.all Action.isStraight = true) :
    ∀ stA : ActSt,
      (execActionList p stA acts).2 = none ∧
      (execActionList p stA acts).1.regs = applyActs acts stA.regs := by
  induction acts with
  | nil => intro stA; exact ⟨rfl, rfl⟩
  | cons a rest ih =>
      intro stA
      simp only [List.all_cons, Bool.and_eq_true] at h
      cases a with
      | writeRegister reg v =>
          have := ih h.2 { stA with regs := updateFn stA.regs reg v }
          simpa [execActionList, execAction, hb, applyActs] using this
      | compareRegister reg v =>
          have := ih h.2 { stA with lastResult := stA.regs reg == v }
          simpa [execActionList, execAction, hb, applyActs] using this
      | ifAction t e =>
          simp [Action.isStraight] at h
      | compareTargetRegister ti reg v =>
          simp [Action.isStraight] at h

theorem configuration_execute_straight (cfg : Configuration) (p : HwPlan)
    (i : String) (hb : p.bad = []) (hs : cfg.straight = true) (st : St) :
    (cfg.execute p i st).1.act.regs = applyActs cfg.actions st.act.regs ∧
    (cfg.execute p i st).1.faults = st.faults := by
  have he := exec_straight cfg.actions p hb hs st.act
  rcases h : execActionList p st.act cfg.actions with ⟨a', e⟩
  rw [h] at he
  obtain ⟨he1, he2⟩ := he
  simp only at he1 he2
  subst he1
  constructor
  · simpa [Configuration.execute, h] using he2
  · simp [Configuration.execute, h]

theorem rail_configure_straight (r : Rail) (p : HwPlan) (cn : Nat)
    (di : String) (hb : p.bad = []) (hs : r.straight = true) (st : St) :
    (r.configure p cn di st).st.act.regs = applyActs r.acts st.act.regs ∧
    (r.configure p cn di st).st.faults = st.faults := by
  cases hc : r.configuration with
  | none => simp [Rail.configure, hc, Rail.acts, applyActs]
  | some cfg =>
      rw [Rail.straight, hc] at hs
      have h := configuration_execute_straight cfg p r.id hb hs
        { st with trace := st.trace ++ [Event.railConfigured cn di r.id] }
      rcases he : cfg.execute p r.id
          { st with trace := st.trace ++ [Event.railConfigured cn di r.id] } with ⟨st1, e⟩
      rw [he] at h
      simp only [Rail.configure, hc, he]
      simpa [Rail.acts, hc] using h

theorem configureRailList_straight (p : HwPlan) (cn : Nat) (di : String)
    (rs : List Rail) (hb : p.bad = []) (hs : rs.all Rail.straight = true) :
    ∀ st : St,
      (configureRailList p cn di st rs).st.act.regs
        = applyActs (rs.flatMap Rail.acts) st.act.regs ∧
      (configureRailList p cn di st rs).st.faults = st.faults := by
  induction rs with
  | nil => intro st; simp [configureRailList, applyActs]
  | cons r rest ih =>
      intro st
      simp only [List.all_cons, Bool.and_eq_true] at hs
      have hr := rail_configure_straight r p cn di hb hs.1 st
      have hr' := rail_configure_spec r p cn di st
      rcases hres : r.configure p cn di st with ⟨r', st', e⟩
      rw [hres] at hr hr'
      obtain ⟨h1, h2, -, -⟩ := hr'
      simp only at h1 h2
      subst h1
      subst h2
      obtain ⟨hg1, hg2⟩ := hr
      simp only at hg1 hg2
      have hrest := ih hs.2 st'
      simp only [configureRailList, hres]
      constructor
      · rw [hrest.1, List.flatMap_cons, applyActs_append, hg1]
      · rw [hrest.2, hg2]

theorem device_configure_straight (d : Device) (p : HwPlan) (cn : Nat)
    (hb : p.bad = []) (hs : d.straight = true) (st : St) :
    (d.configure p cn st).st.act.regs = applyActs d.acts st.act.regs ∧
    (d.configure p cn st).st.faults = st.faults := by
  rcases d with ⟨did, dcfg, dmon, drails⟩
  rw [Device.straight, Bool.and_eq_true] at hs
  cases dcfg with
  | none =>
      have hrl := configureRailList_straight p cn did drails hb hs.2
        { st with trace := st.trace ++ [Event.deviceConfigured cn did] }
      simp only [Device.configure]
      simpa [Device.acts, applyActs] using hrl
  | some cfg =>
      have hce := configuration_execute_straight cfg p did hb hs.1
        { st with trace := st.trace ++ [Event.deviceConfigured cn did] }
      have hsp := configuration_execute_spec cfg p did
        { st with trace := st.trace ++ [Event.deviceConfigured cn did] }
      rcases he : cfg.execute p did
          { st with trace := st.trace ++ [Event.deviceConfigured cn did] } with ⟨st1, e⟩
      rw [he] at hce hsp
      obtain ⟨hc1, hc2⟩ := hce
      simp only at hc1 hc2
      have he1 : e = none := hsp.1
      subst he1
      have hrl := configureRailList_straight p cn did drails hb hs.2 st1
      simp only [Device.configure, he]
      constructor
      · rw [hrl.1, Device.acts, applyActs_append]
        simp only
        rw [hc1]
      · rw [hrl.2, hc2]

theorem configureDeviceList_straight (p : HwPlan) (cn : Nat)
    (ds : List Device) (hb : p.bad = []) (hs : ds.all Device.straight = true) :
    ∀ st : St,
      (configureDeviceList p cn st ds).st.act.regs
        = applyActs (ds.flatMap Device.acts) st.act.regs ∧
      (configureDeviceList p cn st ds).st.faults = st.faults := by
  induction ds with
  | nil => intro st; simp [configureDeviceList, applyActs]
  | cons d rest ih =>
      intro st
      simp only [List.all_cons, Bool.and_eq_true] at hs
      have hd := device_configure_straight d p cn hb hs.1 st
      have hd' := device_configure_spec d p cn st
      rcases hres : d.configure p cn st with ⟨d', st', e⟩
      rw [hres] at hd hd'
      obtain ⟨h1, h2, -, -, -⟩ := hd'
      simp only at h1 h2
      subst h1
      subst h2
      obtain ⟨hg1, hg2⟩ := hd
      simp only at hg1 hg2
      have hrest := ih hs.2 st'
      simp only [configureDeviceList, hres]
      constructor
      · rw [hrest.1, List.flatMap_cons, applyActs_append, hg1]
      · rw [hrest.2, hg2]

theorem chassis_configure_straight (c : Chassis) (p : HwPlan)
    (hb : p.bad = []) (hs : c.straight = true) (st : St) :
    (c.configure p st).st.act.regs = applyActs c.acts st.act.regs ∧
    (c.configure p st).st.faults = st.faults := by
  rcases c with ⟨cn, ds⟩
  have h := configureDeviceList_straight p cn ds hb hs st
  simpa [Chassis.configure, Chassis.acts] using h

theorem configureChassisList_straight (p : HwPlan) (cs : List Chassis)
    (hb : p.bad = []) (hs : cs.all Chassis.straight = true) :
    ∀ st : St,
      (configureChassisList p st cs).st.act.regs
        = applyActs (cs.flatMap Chassis.acts) st.act.regs ∧
      (configureChassisList p st cs).st.faults = st.faults := by
  induction cs with
  | nil => intro st; simp [configureChassisList, applyActs]
  | cons c rest ih =>
      intro st
      simp only [List.all_cons, Bool.and_eq_true] at hs
      have hc := chassis_configure_straight c p hb hs.1 st
      have hc' := chassis_configure_spec c p st
      rcases hres : c.configure p st with ⟨c', st', e⟩
      rw [hres] at hc hc'
      obtain ⟨h1, h2, -, -⟩ := hc'
      simp only at h1 h2
      subst h1
      subst h2
      obtain ⟨hg1, hg2⟩ := hc
      simp only at hg1 hg2
      have hrest := ih hs.2 st'
      simp only [configureChassisList, hres]
      constructor
      · rw [hrest.1, List.flatMap_cons, applyActs_append, hg1]
      · rw [hrest.2, hg2]

theorem system_configure_straight (s : System) (p : HwPlan)
    (hb : p.bad = []) (hs : s.straight = true) (st : St) :
    (s.configure p st).st.act.regs = applyActs s.acts st.act.regs ∧
    (s.configure p st).st.faults = st.faults := by
  rcases s with ⟨cs⟩
  have h := configureChassisList_straight p cs hb hs st
  simpa [System.configure, System.acts] using h

theorem configureDeviceList_railEvents (p : HwPlan) (cn : Nat)
    (ds : List Device) (st : St) :
    railEventsOf (configureDeviceList p cn st ds).st.trace
      = railEventsOf st.trace
        ++ ds.flatMap (fun d => d.rails.map (fun r => (cn, d.id, r.id))) := by
  induction ds generalizing st with
  | nil => simp [configureDeviceList]
  | cons d rest ih =>
      have hd := device_configure_spec d p cn st
      rcases hres : d.configure p cn st with ⟨d', st', e⟩
      rw [hres] at hd
      obtain ⟨h1, h2, -, h4, -⟩ := hd
      simp only at h1 h2 h4
      subst h1
      subst h2
      simp only [configureDeviceList, hres]
      rw [ih st', h4]
      simp [List.append_assoc]

theorem chassis_configure_railEvents (c : Chassis) (p : HwPlan) (st : St) :
    railEventsOf (c.configure p st).st.trace
      = railEventsOf st.trace
        ++ c.devices.flatMap (fun d => d.rails.map (fun r => (c.number, d.id, r.id))) := by
  rcases c with ⟨cn, ds⟩
  simpa [Chassis.configure] using configureDeviceList_railEvents p cn ds st

theorem configureChassisList_railEvents (p : HwPlan) (cs : List Chassis) (st : St) :
    railEventsOf (configureChassisList p st cs).st.trace
      = railEventsOf st.trace
        ++ cs.flatMap (fun c =>
            c.devices.flatMap (fun d => d.rails.map (fun r => (c.number, d.id, r.id)))) := by
  induction cs generalizing st with
  | nil => simp [configureChassisList]
  | cons c rest ih =>
      have hc := chassis_configure_spec c p st
      have hcr := chassis_configure_railEvents c p st
      rcases hres : c.configure p st with ⟨c', st', e⟩
      rw [hres] at hc hcr
      obtain ⟨h1, h2, -, -⟩ := hc
      simp only at h1 h2 hcr
      subst h1
      subst h2
      simp only [configureChassisList, hres]
      rw [ih st', hcr]
      simp [List.append_assoc]

theorem system_configure_railEvents (s : System) (p : HwPlan) (st : St) :
    railEventsOf (s.configure p st).st.trace
      = railEventsOf st.trace
        ++ s.chassis.flatMap (fun c =>
            c.devices.flatMap (fun d => d.rails.map (fun r => (c.number, d.id, r.id)))) := by
  rcases s with ⟨cs⟩
  simpa [System.configure] using configureChassisList_railEvents p cs st

theorem configuration_executeMonitoring_spec (cfg : Configuration) (p : HwPlan)
    (i : String) (st : St) :
    (cfg.executeMonitoring p i st).2 = none ∧
    ∀ x ∈ (cfg.executeMonitoring p i st).1.faults, x ∈ st.faults ∨ x.1 = i := by
  rcases h : execActionListMonitor p st.act cfg.actions with ⟨a', fs⟩
  refine ⟨by simp [Configuration.executeMonitoring, h], ?_⟩
  intro x hx
  simp only [Configuration.executeMonitoring, h, List.mem_append] at hx
  rcases hx with hx | hx
  · exact Or.inl hx
  · rcases List.mem_map.mp hx with ⟨f, -, hf⟩
    exact Or.inr (by rw [← hf])

theorem rail_monitor_spec (r : Rail) (p : HwPlan) (cn : Nat) (di : String)
    (st : St) :
    (r.monitor p cn di st).escape = none ∧
    (r.monitor p cn di st).entity = r ∧
    ∀ x ∈ (r.monitor p cn di st).st.faults, x ∈ st.faults ∨ x.1 = r.id := by
  cases hc : r.monitoring with
  | none =>
      refine ⟨by simp [Rail.monitor, hc], by simp [Rail.monitor, hc], ?_⟩
      intro x hx
      simp only [Rail.monitor, hc] at hx
      exact Or.inl hx
  | some cfg =>
      have h := configuration_executeMonitoring_spec cfg p r.id st
      rcases he : cfg.executeMonitoring p r.id st with ⟨st1, e⟩
      rw [he] at h
      obtain ⟨h1, h2⟩ := h
      simp only at h1
      subst h1
      refine ⟨by simp [Rail.monitor, hc, he], by simp [Rail.monitor, hc, he], ?_⟩
      intro x hx
      simp only [Rail.monitor, hc, he] at hx
      exact h2 x hx

theorem monitorRailList_spec (p : HwPlan) (cn : Nat) (di : String)
    (rs : List Rail) (st : St) :
    (monitorRailList p cn di st rs).escape = none ∧
    (monitorRailList p cn di st rs).entity = rs ∧
    ∀ x ∈ (monitorRailList p cn di st rs).st.faults,
      x ∈ st.faults ∨ x.1 ∈ rs.map (fun r => r.id) := by
  induction rs generalizing st with
  | nil =>
      refine ⟨rfl, rfl, ?_⟩
      intro x hx
      exact Or.inl hx
  | cons r rest ih =>
      have hr := rail_monitor_spec r p cn di st
      rcases hres : r.monitor p cn di st with ⟨r', st', e⟩
      rw [hres] at hr
      obtain ⟨h1, h2, h3⟩ := hr
      simp only at h1 h2
      subst h1
      subst h2
      have hrest := ih st'
      simp only [monitorRailList, hres]
      refine ⟨hrest.1, by simp [hrest.2.1], ?_⟩
      intro x hx
      rcases hrest.2.2 x hx with hx' | hx'
      · rcases h3 x hx' with h | h
        · exact Or.inl h
        · exact Or.inr (by simp [h])
      · exact Or.inr (by simp [hx'])

theorem device_monitor_spec (d : Device) (p : HwPlan) (cn : Nat) (st : St) :
    (d.monitor p cn st).escape = none ∧
    (d.monitor p cn st).entity = d ∧
    ∀ x ∈ (d.monitor p cn st).st.faults,
      x ∈ st.faults ∨ x.1 = d.id ∨ x.1 ∈ d.rails.map (fun r => r.id) := by
  rcases d with ⟨did, dcfg, dmon, drails⟩
  cases dmon with
  | none =>
      have hrl := monitorRailList_spec p cn did drails st
      simp only [Device.monitor]
      refine ⟨hrl.1, ?_, ?_⟩
      · simp [hrl.2.1]
      · intro x hx
        rcases hrl.2.2 x hx with hx' | hx'
        · exact Or.inl hx'
        · exact Or.inr (Or.inr hx')
  | some cfg =>
      have hce := configuration_executeMonitoring_spec cfg p did st
      rcases he : cfg.executeMonitoring p did st with ⟨st1, e⟩
      rw [he] at hce
      obtain ⟨he1, he3⟩ := hce
      simp only at he1
      subst he1
      have hrl := monitorRailList_spec p cn did drails st1
      simp only [Device.monitor, he]
      refine ⟨hrl.1, ?_, ?_⟩
      · simp [hrl.2.1]
      · intro x hx
        rcases hrl.2.2 x hx with hx' | hx'
        · rcases he3 x hx' with h | h
          · exact Or.inl h
          · exact Or.inr (Or.inl h)
        · exact Or.inr (Or.inr hx')

theorem monitorDeviceList_spec (p : HwPlan) (cn : Nat)
    (ds : List Device) (st : St) :
    (monitorDeviceList p cn st ds).escape = none ∧
    (monitorDeviceList p cn st ds).entity = ds ∧
    ∀ x ∈ (monitorDeviceList p cn st ds).st.faults,
      x ∈ st.faults ∨ x.1 ∈ deviceMemberIds ds := by
  induction ds generalizing st with
  | nil =>
      refine ⟨rfl, rfl, ?_⟩
      intro x hx
      exact Or.inl hx
  | cons d rest ih =>
      have hd := device_monitor_spec d p cn st
      rcases hres : d.monitor p cn st with ⟨d', st', e⟩
      rw [hres] at hd
      obtain ⟨h1, h2, h5⟩ := hd
      simp only at h1 h2
      subst h1
      subst h2
      have hrest := ih st'
      simp only [monitorDeviceList, hres]
      refine ⟨hrest.1, by simp [hrest.2.1], ?_⟩
      intro x hx
      rcases hrest.2.2 x hx with hx' | hx'
      · rcases h5 x hx' with h | h | h
        · exact Or.inl h
        · refine Or.inr ?_
          rw [deviceMemberIds_cons, h]
          exact List.mem_cons_self _ _
        · refine Or.inr ?_
          rw [deviceMemberIds_cons]
          exact List.mem_cons_of_mem _ (List.mem_append_left _ h)
      · refine Or.inr ?_
        rw [deviceMemberIds_cons]
        exact List.mem_cons_of_mem _ (List.mem_append_right _ hx')

theorem chassis_monitor_spec (c : Chassis) (p : HwPlan) (st : St) :
    (c.monitor p st).escape = none ∧
    (c.monitor p st).entity = c ∧
    ∀ x ∈ (c.monitor p st).st.faults,
      x ∈ st.faults ∨ x.1 ∈ deviceMemberIds c.devices := by
  rcases c with ⟨cn, ds⟩
  have h := monitorDeviceList_spec p cn ds st
  simp only [Chassis.monitor]
  exact ⟨h.1, by simp [h.2.1], h.2.2⟩

theorem monitorChassisList_spec (p : HwPlan) (cs : List Chassis) (st : St) :
    (monitorChassisList p st cs).escape = none ∧
    (monitorChassisList p st cs).entity = cs ∧
    ∀ x ∈ (monitorChassisList p st cs).st.faults,
      x ∈ st.faults ∨ x.1 ∈ chassisMemberIds cs := by
  induction cs generalizing st with
  | nil =>
      refine ⟨rfl, rfl, ?_⟩
      intro x hx
      exact Or.inl hx
  | cons c rest ih =>
      have hc := chassis_monitor_spec c p st
      rcases hres : c.monitor p st with ⟨c', st', e⟩
      rw [hres] at hc
      obtain ⟨h1, h2, h4⟩ := hc
      simp only at h1 h2
      subst h1
      subst h2
      have hrest := ih st'
      simp only [monitorChassisList, hres]
      refine ⟨hrest.1, by simp [hrest.2.1], ?_⟩
      intro x hx
      rcases hrest.2.2 x hx with hx' | hx'
      · rcases h4 x hx' with h | h
        · exact Or.inl h
        · refine Or.inr ?_
          rw [chassisMemberIds_cons]
          exact List.mem_append_left _ h
      · refine Or.inr ?_
        rw [chassisMemberIds_cons]
        exact List.mem_append_right _ hx'

theorem system_monitor_spec (s : System) (p : HwPlan) (st : St) :
    (s.monitor p st).escape = none ∧
    (s.monitor p st).entity = s ∧
    ∀ x ∈ (s.monitor p st).st.faults, x ∈ st.faults ∨ x.1 ∈ s.allIds := by
  rcases s with ⟨cs⟩
  have h := monitorChassisList_spec p cs st
  simp only [System.monitor]
  refine ⟨h.1, by simp [h.2.1], ?_⟩
  intro x hx
  rw [allIds_eq_chassisMemberIds]
  exact h.2.2 x hx

end Regulators

namespace Regulators

/-- C1: for every Device whose own Configuration raises a
HardwareTransactionFault during configure, the remaining actions of that
Configuration are aborted (the faulting action's state is final and the
fault is recorded against the entity, with nothing escaping), but every Rail
owned by that Device is still configured in order, and sibling Devices in
the same Chassis are still configured. -/
theorem device_fault_isolation
    (p : HwPlan) (i : String) (st : St) (a : Action) (rest : List Action)
    (stA' : ActSt) (f : Fault)
    (hfault : execAction p st.act a = (stA', some f)) :
    Configuration.execute ⟨a :: rest⟩ p i st
      = ({ st with act := stA', faults := st.faults ++ [(i, f)] }, none) ∧
    (∀ (d : Device) (cn : Nat) (st' : St),
      railEventsOf (d.configure p cn st').st.trace
        = railEventsOf st'.trace ++ d.rails.map (fun r => (cn, d.id, r.id))) ∧
    (∀ (c : Chassis) (st' : St),
      deviceEventsOf (c.configure p st').st.trace
        = deviceEventsOf st'.trace ++ c.devices.map (fun d => (c.number, d.id))) := by
  refine ⟨?_, ?_, ?_⟩
  · simp only [Configuration.execute, execActionList, hfault]
  · intro d cn st'
    exact (device_configure_spec d p cn st').2.2.2.1
  · intro c st'
    exact (chassis_configure_spec c p st').2.2.1

/-- Witness for C1 at a concrete input: a two-action configuration whose
first remaining action faults on register 2, the three-rail example device
and the two-device example chassis. -/
theorem device_fault_isolation_witness :
    Configuration.execute ⟨[Action.writeRegister 2 22, Action.writeRegister 3 33]⟩
        planBad2 "d1" stInit
      = ({ stInit with
            act := stInit.act,
            faults := stInit.faults ++ [("d1", Fault.hardwareTransactionFault)] }, none) ∧
    railEventsOf (deviceW1.configure planBad2 1 stInit).st.trace
      = railEventsOf stInit.trace
        ++ deviceW1.rails.map (fun r => (1, deviceW1.id, r.id)) ∧
    deviceEventsOf (chassisW.configure planBad2 stInit).st.trace
      = deviceEventsOf stInit.trace
        ++ chassisW.devices.map (fun d => (chassisW.number, d.id)) := by
  have h := device_fault_isolation planBad2 "d1" stInit (Action.writeRegister 2 22)
    [Action.writeRegister 3 33] stInit.act Fault.hardwareTransactionFault rfl
  exact ⟨h.1, h.2.1 deviceW1 1 stInit, h.2.2 chassisW stInit⟩

/-- C2: for every chassis number n, construction with n < 1 fails with the
invalid-argument error built in the constructor body, and for every n ≥ 1
construction succeeds and getNumber() returns exactly n. -/
theorem chassis_number_validation (n : Nat) (ds : List Device) :
    (n < 1 → (chassisCtor n ds).1
      = .error ("Invalid chassis number: " ++ toString n)) ∧
    (1 ≤ n → ∃ c, (chassisCtor n ds).1 = .ok c ∧ c.getNumber = n) := by
  constructor
  · intro h
    simp [chassisCtor, h]
  · intro h
    have h' : ¬n < 1 := by omega
    exact ⟨⟨n, ds⟩, by simp [chassisCtor, h'], rfl⟩

/-- Witness for C2 at the concrete chassis numbers 0 and 3. -/
theorem chassis_number_validation_witness :
    (chassisCtor 0 ([] : List Device)).1
      = .error ("Invalid chassis number: " ++ toString 0) ∧
    ∃ c, (chassisCtor 3 ([] : List Device)).1 = .ok c ∧ c.getNumber = 3 :=
  ⟨(chassis_number_validation 0 []).1 (by decide),
   (chassis_number_validation 3 []).2 (by decide)⟩

/-- C3: no fault — hardware-transaction or execution-time lookup — ever
propagates out of the System's top-level configure or monitor call, so those
calls never fail; every fault recorded during either pass is recorded
against the identifier of a Device or Rail of the hierarchy; and at the
Device/Rail boundary itself the catch records exactly the fault its own
Configuration or monitor action set raised, under that entity's identifier. -/
theorem system_configure_never_fails (s : System) (p : HwPlan) (st : St) :
    (s.configure p st).escape = none ∧
    (s.monitor p st).escape = none ∧
    (∀ x ∈ (s.configure p st).st.faults, x ∈ st.faults ∨ x.1 ∈ s.allIds) ∧
    (∀ x ∈ (s.monitor p st).st.faults, x ∈ st.faults ∨ x.1 ∈ s.allIds) ∧
    (∀ (cfg : Configuration) (i : String) (st' : St),
      (cfg.execute p i st').2 = none ∧
      ((cfg.execute p i st').1.faults = st'.faults ∨
        ∃ f, execActionList p st'.act cfg.actions
            = ((cfg.execute p i st').1.act, some f) ∧
          (cfg.execute p i st').1.faults = st'.faults ++ [(i, f)])) ∧
    (∀ (cfg : Configuration) (i : String) (st' : St),
      (cfg.executeMonitoring p i st').2 = none ∧
      ∃ fs : List Fault, (cfg.executeMonitoring p i st').1.faults
        = st'.faults ++ fs.map (fun f => (i, f))) := by
  refine ⟨(system_configure_spec s p st).1, (system_monitor_spec s p st).1,
    (system_configure_spec s p st).2.2.2, (system_monitor_spec s p st).2.2,
    ?_, ?_⟩
  · intro cfg i st'
    rcases h : execActionList p st'.act cfg.actions with ⟨a', e⟩
    cases e with
    | none => exact ⟨by simp [Configuration.execute, h], Or.inl (by simp [Configuration.execute, h])⟩
    | some f =>
        have hact : (cfg.execute p i st').1.act = a' := by
          simp [Configuration.execute, h]
        refine ⟨by simp [Configuration.execute, h], Or.inr ⟨f, ?_, ?_⟩⟩
        · rw [hact]
        · simp [Configuration.execute, h]
  · intro cfg i st'
    rcases h : execActionListMonitor p st'.act cfg.actions with ⟨a', fs⟩
    exact ⟨by simp [Configuration.executeMonitoring, h],
      ⟨fs, by simp [Configuration.executeMonitoring, h]⟩⟩

/-- Witness for C3 at concrete inputs: a configure pass on the example
system with a failing register transaction (the recorded fault is attributed
to device d1) and a monitoring pass on a system whose device's monitor
action set reads the failing register (attributed to device dm). -/
theorem system_configure_never_fails_witness :
    (sysW.configure planBad2 stInit).escape = none ∧
    (sysM.monitor planBad2 stInit).escape = none ∧
    (("d1", Fault.hardwareTransactionFault) ∈ stInit.faults
      ∨ "d1" ∈ sysW.allIds) ∧
    (("dm", Fault.hardwareTransactionFault) ∈ stInit.faults
      ∨ "dm" ∈ sysM.allIds) := by
  have h1 := system_configure_never_fails sysW planBad2 stInit
  have h2 := system_configure_never_fails sysM planBad2 stInit
  exact ⟨h1.1, h2.2.1,
    h1.2.2.1 ("d1", Fault.hardwareTransactionFault) (by decide),
    h2.2.2.2.1 ("dm", Fault.hardwareTransactionFault) (by decide)⟩

/-- C4: after the IDMap-population walk over a hierarchy with distinct
identifiers, every Device and Rail is registered under its identifier and
getDevice/getRail return exactly the registered object. -/
theorem idmap_population_complete (s : System) (h : s.allIds.Nodup) :
    ∃ m, s.buildIDMap = .ok m ∧
      (∀ d ∈ s.allDevices, m.getDevice d.id = .ok d) ∧
      (∀ d ∈ s.allDevices, ∀ r ∈ d.rails, m.getRail r.id = .ok r) := by
  have hkeys : (entriesOfDevices s.allDevices).map Prod.fst = s.allIds := by
    rw [entriesOfDevices_keys, allIds_eq_deviceMemberIds]
  have hok : addKVList ⟨[]⟩ (entriesOfDevices s.allDevices)
      = .ok ⟨[] ++ entriesOfDevices s.allDevices⟩ := by
    apply addKVList_ok
    simpa [hkeys] using h
  refine ⟨⟨entriesOfDevices s.allDevices⟩, ?_, ?_, ?_⟩
  · rw [System.buildIDMap, addDeviceList_eq_addKVList]
    simpa using hok
  · intro d hd
    have hmem : (d.id, IDMapEntry.device d) ∈ entriesOfDevices s.allDevices := by
      rw [entriesOfDevices]
      exact List.mem_flatMap.mpr ⟨d, hd, List.mem_cons_self _ _⟩
    have hfind := findEntry_mem_nodup _ _ _ (by rw [hkeys]; exact h) hmem
    simp [IDMap.getDevice, hfind]
  · intro d hd r hr
    have hmem : (r.id, IDMapEntry.rail r) ∈ entriesOfDevices s.allDevices := by
      rw [entriesOfDevices]
      refine List.mem_flatMap.mpr ⟨d, hd, ?_⟩
      rw [kvOfDevice]
      exact List.mem_cons_of_mem _ (List.mem_map.mpr ⟨r, hr, rfl⟩)
    have hfind := findEntry_mem_nodup _ _ _ (by rw [hkeys]; exact h) hmem
    simp [IDMap.getRail, hfind]

/-- Witness for C4 at a concrete input: the example system, whose
identifiers are distinct, with one device lookup and one rail lookup. -/
theorem idmap_population_complete_witness :
    ∃ m, sysW.buildIDMap = .ok m ∧
      m.getDevice "d1" = .ok deviceW1 ∧ m.getRail "r2" = .ok railW2 := by
  obtain ⟨m, h1, h2, h3⟩ := idmap_population_complete sysW (by decide)
  have hd1 : deviceW1 ∈ sysW.allDevices := by
    simp [System.allDevices, sysW, chassisW]
  have hr2 : railW2 ∈ deviceW1.rails := by
    simp [deviceW1]
  exact ⟨m, h1, h2 deviceW1 hd1, h3 deviceW1 hd1 railW2 hr2⟩

/-- C5: registering a Device or Rail whose identifier is already registered
fails with a duplicate-identifier BuildError, and a hierarchy containing a
duplicate identifier fails the build-time IDMap-population walk (the
duplicate is detected at build time, not at execution time). -/
theorem idmap_duplicate_registration_fails (m : IDMap) (d : Device) (r : Rail)
    (hd : (findEntry m.entries d.id).isSome = true)
    (hr : (findEntry m.entries r.id).isSome = true) :
    m.addDevice d = .error (.duplicateId d.id) ∧
    m.addRail r = .error (.duplicateId r.id) ∧
    ∀ (s : System), ¬s.allIds.Nodup → ∃ e, s.buildIDMap = .error e := by
  refine ⟨?_, ?_, ?_⟩
  · rcases hf : findEntry m.entries d.id with - | v
    · rw [hf] at hd
      cases hd
    · simp [IDMap.addDevice, IDMap.add, hf]
  · rcases hf : findEntry m.entries r.id with - | v
    · rw [hf] at hr
      cases hr
    · simp [IDMap.addRail, IDMap.add, hf]
  · intro s hnd
    rcases hb : s.buildIDMap with e | m'
    · exact ⟨e, rfl⟩
    · exfalso
      rw [System.buildIDMap, addDeviceList_eq_addKVList] at hb
      have hn := addKVList_ok_nodup _ _ _ (by simp) hb
      apply hnd
      rw [allIds_eq_deviceMemberIds, ← entriesOfDevices_keys]
      simpa using hn

/-- Witness for C5 at a concrete input: a map already holding identifier x,
a device and a rail both named x, and a system with two devices named x. -/
theorem idmap_duplicate_registration_fails_witness :
    mapX.addDevice deviceX = .error (.duplicateId "x") ∧
    mapX.addRail railX = .error (.duplicateId "x") ∧
    ∃ e, sysDup.buildIDMap = .error e := by
  have h := idmap_duplicate_registration_fails mapX deviceX railX
    (by decide) (by decide)
  exact ⟨h.1, h.2.1, h.2.2 sysDup (by decide)⟩

/-- C6: configure() visits entities in construction order — Chassis in
construction order, Devices within each Chassis in construction order, and
Rails within each Device in construction order (the rail-level call trace is
the construction-order flatMap nested under the device order) — and with
Chassis [C1, C2] each holding Devices [D1, D2], device-level configuration
runs in the order D1(C1), D2(C1), D1(C2), D2(C2). -/
theorem configure_traversal_order :
    (∀ (s : System) (p : HwPlan) (st : St),
      deviceEventsOf (s.configure p st).st.trace
        = deviceEventsOf st.trace
          ++ s.chassis.flatMap (fun c => c.devices.map (fun d => (c.number, d.id)))) ∧
    (∀ (s : System) (p : HwPlan) (st : St),
      railEventsOf (s.configure p st).st.trace
        = railEventsOf st.trace
          ++ s.chassis.flatMap (fun c =>
              c.devices.flatMap (fun d => d.rails.map (fun r => (c.number, d.id, r.id))))) ∧
    (∀ (dA dB : Device) (p : HwPlan),
      deviceEventsOf
          ((System.mk [⟨1, [dA, dB]⟩, ⟨2, [dA, dB]⟩]).configure p stInit).st.trace
        = [(1, dA.id), (1, dB.id), (2, dA.id), (2, dB.id)]) := by
  refine ⟨?_, ?_, ?_⟩
  · intro s p st
    exact (system_configure_spec s p st).2.2.1
  · intro s p st
    exact system_configure_railEvents s p st
  · intro dA dB p
    have h := (system_configure_spec ⟨[⟨1, [dA, dB]⟩, ⟨2, [dA, dB]⟩]⟩ p stInit).2.2.1
    simpa [stInit, deviceEventsOf] using h

/-- C7: the hierarchy shape is preserved — getDevices() returns exactly the
device sequence supplied at construction, and both a configure pass and a
monitor pass return the hierarchy unchanged (no Devices or Rails added or
removed at runtime by either operation). -/
theorem hierarchy_shape_preserved :
    (∀ (n : Nat) (ds : List Device) (c : Chassis),
      (chassisCtor n ds).1 = .ok c → c.getDevices = ds) ∧
    (∀ (s : System) (p : HwPlan) (st : St), (s.configure p st).entity = s) ∧
    (∀ (s : System) (p : HwPlan) (st : St), (s.monitor p st).entity = s) := by
  refine ⟨?_, ?_, ?_⟩
  · intro n ds c h
    by_cases hn : n < 1
    · simp [chassisCtor, hn] at h
    · simp only [chassisCtor, if_neg hn] at h
      cases h
      rfl
  · intro s p st
    exact (system_configure_spec s p st).2.1
  · intro s p st
    exact (system_monitor_spec s p st).2.1

/-- Witness for C7 at concrete inputs: a chassis built with one device, the
example system after a configure pass with a failing transaction, and the
monitored system after a monitor pass with a failing transaction. -/
theorem hierarchy_shape_preserved_witness :
    Chassis.getDevices ⟨3, [deviceW1]⟩ = [deviceW1] ∧
    (sysW.configure planBad2 stInit).entity = sysW ∧
    (sysM.monitor planBad2 stInit).entity = sysM := by
  have h := hierarchy_shape_preserved
  exact ⟨h.1 3 [deviceW1] ⟨3, [deviceW1]⟩ rfl, h.2.1 sysW planBad2 stInit,
    h.2.2 sysM planBad2 stInit⟩

/-- C8 (counterexample): on the branching system, both configure passes are
fault-free (no fault entries are recorded), yet the final register state
after two passes differs from the state after a single pass — register 0
holds 1 after one pass and 2 after two — so calling configure() twice is not
idempotent on register state in general. -/
theorem configure_twice_differs :
    onceC8.faults = [] ∧ twiceC8.faults = [] ∧
    onceC8.act.regs 0 = 1 ∧ twiceC8.act.regs 0 = 2 ∧
    twiceC8.act.regs 0 ≠ onceC8.act.regs 0 := by
  refine ⟨rfl, rfl, rfl, rfl, by decide⟩

/-- C8 (amended): for hierarchies whose configurations are straight-line
(register writes and comparisons only, no state-dependent branching) and
with no hardware faults, a second configure() pass leaves every register
exactly as after the first pass and records no fault entries in either
pass. -/
theorem configure_idempotent_straightline (s : System) (p : HwPlan) (st : St)
    (x : Nat) (hs : s.straight = true) (hb : p.bad = []) :
    (s.configure p (s.configure p st).st).st.act.regs x
      = (s.configure p st).st.act.regs x ∧
    (s.configure p st).st.faults = st.faults ∧
    (s.configure p (s.configure p st).st).st.faults = st.faults := by
  have h1 := system_configure_straight s p hb hs st
  have h2 := system_configure_straight s p hb hs (s.configure p st).st
  refine ⟨?_, h1.2, by rw [h2.2, h1.2]⟩
  rw [h2.1, h1.1]
  exact applyActs_idem s.acts st.act.regs x

/-- Witness for the amended C8 at a concrete input: the example system,
whose configurations are straight-line, under fault-free hardware. -/
theorem configure_idempotent_straightline_witness :
    (sysW.configure planOk (sysW.configure planOk stInit).st).st.act.regs 1
      = (sysW.configure planOk stInit).st.act.regs 1 ∧
    (sysW.configure planOk stInit).st.faults = stInit.faults ∧
    (sysW.configure planOk (sysW.configure planOk stInit).st).st.faults
      = stInit.faults :=
  configure_idempotent_straightline sysW planOk stInit 1 (by decide) rfl

/-- C9: Chassis construction is not atomic with respect to its devices
argument — the devices vector is moved into the object before the chassis
number is validated, so a failing construction (number 0) still leaves the
caller's vector empty rather than intact. -/
theorem chassis_ctor_consumes_devices (ds : List Device) (h : ds ≠ []) :
    (∃ msg, (chassisCtor 0 ds).1 = .error msg) ∧
    (chassisCtor 0 ds).2 = [] ∧
    (chassisCtor 0 ds).2 ≠ ds := by
  refine ⟨⟨"Invalid chassis number: " ++ toString 0, by simp [chassisCtor]⟩,
    by simp [chassisCtor], ?_⟩
  simp only [chassisCtor]
  intro hh
  exact h (by simpa using hh.symm)

/-- Witness for C9 at a concrete input: construction of chassis 0 from a
one-device vector. -/
theorem chassis_ctor_consumes_devices_witness :
    (∃ msg, (chassisCtor 0 [deviceW1]).1 = .error msg) ∧
    (chassisCtor 0 [deviceW1]).2 = [] ∧
    (chassisCtor 0 [deviceW1]).2 ≠ [deviceW1] :=
  chassis_ctor_consumes_devices [deviceW1] (by simp)

end Regulators

namespace PSUManagerModel

/-- C10: PSUManager::initialize, PSUManager::clearFaults and
PSUManager::analyze are no-ops — each call leaves every field of the manager
and all external state unchanged. -/
theorem psu_manager_methods_noop (m : PSUManager) (w : World) :
    m.initialise w = (m, w) ∧ m.clearFaults w = (m, w) ∧ m.analyze w = (m, w) :=
  ⟨rfl, rfl, rfl⟩

end PSUManagerModel
